import Mathlib

/-!
Verification of the route-matching core of a React-Router-style library.

The development shallowly embeds the JavaScript modules
`matchPath.js`, `Router.js`, `Switch.js` and `Route.js`:

* `matchPath` is embedded as a pure function parameterised by the
  pattern compiler (the external `path-to-regexp` collaborator is
  abstracted as a function producing a `CompiledMatcher`);
* the module-level compilation cache of `matchPath.js` is embedded as
  explicit state passing through `compilePath`;
* the `Router` component state machine is embedded as a state record
  with transition functions for the history listener, mounting and
  unmounting;
* the `Switch` and `Route` render logic is embedded as pure selection
  functions over explicit props and context records.

JavaScript objects used as string-keyed dictionaries are embedded as
association lists; JavaScript truthiness of the relevant prop values is
made explicit in dedicated functions.
-/

namespace ReactRouter

/-- Association-list lookup, modelling reading a property of a
JavaScript object used as a dictionary. -/
def alookup {α β : Type} [DecidableEq α] : List (α × β) → α → Option β
  | [], _ => none
  | (k0, v0) :: rest, k => if k0 = k then some v0 else alookup rest k

/-- Association-list update, modelling assignment to a property of a
JavaScript object used as a dictionary: overwrite the binding if the key
is present, append it otherwise. -/
def aset {α β : Type} [DecidableEq α] : List (α × β) → α → β → List (α × β)
  | [], k, v => [(k, v)]
  | (k0, v0) :: rest, k, v =>
    if k0 = k then (k, v) :: rest else (k0, v0) :: aset rest k v

/-- A location value as consumed from the history collaborator:
minimally a pathname. -/
structure Location where
  pathname : String
deriving Repr, DecidableEq

/-- One element of a path-candidate sequence as it can occur in the
JavaScript value passed for `path`: either a string, or a nullish
(falsy, non-string) value such as `null`, `undefined` or `false`. -/
inductive PathElem where
  | str (s : String)
  | nullish
deriving Repr, DecidableEq

/-- The JavaScript value of a `path` (or `from`) prop: a single string
or an array of candidate elements.  `[].concat(path)` in the source
turns the former into a one-element sequence and keeps the latter. -/
inductive PathProp where
  | single (s : String)
  | arr (es : List PathElem)
deriving Repr, DecidableEq

/-- JavaScript truthiness of a path-candidate element: nullish values
and the empty string are falsy, all other strings are truthy. -/
def PathElem.truthy : PathElem → Bool
  | .nullish => false
  | .str s => s ≠ ""

/-- JavaScript truthiness of a `path`/`from` prop value: an absent
(undefined) prop and the empty string are falsy; arrays are always
truthy. -/
def pathPropTruthy : Option PathProp → Bool
  | none => false
  | some (.single s) => s ≠ ""
  | some (.arr _) => true

/-- The candidate sequence `[].concat(path)`: an absent `path` yields
the one-element sequence holding `undefined`. -/
def pathCandidates : Option PathProp → List PathElem
  | none => [.nullish]
  | some (.single s) => [.str s]
  | some (.arr es) => es

/-- The options record handed to the pattern compiler:
`{ end, strict, sensitive }` (`end` is renamed `end_`). -/
structure CompileOptions where
  end_ : Bool
  strict : Bool
  sensitive : Bool
deriving Repr, DecidableEq

/-- The artifact produced by the external `path-to-regexp`
collaborator for one pattern string: `regexp` is embedded as its `exec`
behaviour (on success: the full matched substring and the ordered
capture values, a capture possibly undefined), `keys` as the ordered
parameter names. -/
structure CompiledMatcher where
  exec : String → Option (String × List (Option String))
  keys : List String

/-- The options record accepted by `matchPath` after normalisation,
with the destructuring defaults of the source
(`exact = strict = sensitive = false` when absent). -/
structure MatchPathOptions where
  path : Option PathProp
  exact : Bool
  strict : Bool
  sensitive : Bool

/-- The match-result object built by `matchPath`: the pattern used, the
matched portion of the URL, the exactness flag and the params
dictionary (a value of `none` models a JavaScript `undefined` binding). -/
structure MatchResult where
  path : String
  url : String
  isExact : Bool
  params : List (String × Option String)
deriving Repr, DecidableEq

/-- The params object of `matchPath`:
`keys.reduce((memo, key, index) => { memo[key.name] = values[index]; return memo; }, {})`. -/
def buildParams (keys : List String) (values : List (Option String)) :
    List (String × Option String) :=
  keys.enum.foldl (fun memo ki => aset memo ki.2 ((values.get? ki.1).join)) []

/-- One step of the `paths.reduce` in `matchPath`, for the candidate
`p` with accumulator `matched`.  The falsy guard
`if (!path && path !== "") return null;` precedes the
`if (matched) return matched;` short-circuit, exactly as in the
source. -/
def matchOne (compile : String → CompileOptions → CompiledMatcher)
    (pathname : String) (exact strict sensitive : Bool)
    (matched : Option MatchResult) (p : PathElem) : Option MatchResult :=
  match p with
  | .nullish => none
  | .str s =>
    match matched with
    | some m => some m
    | none =>
      let cm := compile s { end_ := exact, strict := strict, sensitive := sensitive }
      match cm.exec pathname with
      | none => none
      | some (url, values) =>
        let isExact := pathname = url
        if exact ∧ ¬ isExact then none
        else
          some { path := s
                 url := if s = "/" ∧ url = "" then "/" else url
                 isExact := isExact
                 params := buildParams cm.keys values }

/-- `matchPath(pathname, options)`: fold the candidate sequence with
`matchOne`, starting from `null`.  The compilation layer is abstracted
by the `compile` parameter (the source calls `compilePath`, whose cache
is shown transparent separately). -/
def matchPath (compile : String → CompileOptions → CompiledMatcher)
    (pathname : String) (options : MatchPathOptions) : Option MatchResult :=
  (pathCandidates options.path).foldl
    (matchOne compile pathname options.exact options.strict options.sensitive) none

/-- The outcome of testing a single candidate from a clean accumulator:
used to state which candidates "match". -/
def candMatch (compile : String → CompileOptions → CompiledMatcher)
    (pathname : String) (exact strict sensitive : Bool)
    (p : PathElem) : Option MatchResult :=
  matchOne compile pathname exact strict sensitive none p

/-! ### The module-level compilation cache of `matchPath.js` -/

/-- `const cacheLimit = 10000;` -/
def cacheLimit : Nat := 10000

/-- The module-level mutable state of `matchPath.js`: the two-level
cache object (outer key: the option string, inner key: the pattern
string) and the global entry counter. -/
structure CacheState where
  cache : List (String × List (String × CompiledMatcher))
  cacheCount : Nat

/-- The initial module state: `const cache = {}; let cacheCount = 0;` -/
def emptyCacheState : CacheState :=
  { cache := [], cacheCount := 0 }

/-- JavaScript string interpolation of a boolean. -/
def jsBool (b : Bool) : String :=
  if b then "true" else "false"

/-- The composite cache key
`` `${options.end}${options.strict}${options.sensitive}` ``. -/
def cacheKey (options : CompileOptions) : String :=
  jsBool options.end_ ++ jsBool options.strict ++ jsBool options.sensitive

/-- `compilePath(path, options)` with the module state made explicit.
`pathToRegexp` stands for the external compiler.  The source reads
`const pathCache = cache[cacheKey] || (cache[cacheKey] = {});`, so a
missing bucket is created even when no entry will be inserted; then a
cached entry is returned as is, and a freshly compiled result is
inserted (and the counter bumped) only while the counter is below
`cacheLimit`. -/
def compilePath (pathToRegexp : String → CompileOptions → CompiledMatcher)
    (path : String) (options : CompileOptions) (st : CacheState) :
    CompiledMatcher × CacheState :=
  let key := cacheKey options
  let st1 : CacheState :=
    match alookup st.cache key with
    | some _ => st
    | none => { st with cache := aset st.cache key [] }
  let pathCache := (alookup st1.cache key).getD []
  match alookup pathCache path with
  | some r => (r, st1)
  | none =>
    let result := pathToRegexp path options
    if st1.cacheCount < cacheLimit then
      (result,
       { cache := aset st1.cache key (aset pathCache path result)
         cacheCount := st1.cacheCount + 1 })
    else (result, st1)

/-- Lookup of a cached entry for a (pattern, options) pair, through
both cache levels. -/
def lookupEntry (st : CacheState) (options : CompileOptions) (path : String) :
    Option CompiledMatcher :=
  (alookup st.cache (cacheKey options)).bind (fun pc => alookup pc path)

/-- Well-formedness of the cache with respect to the external compiler:
every stored entry is the compilation of its own key. -/
def WFCache (pathToRegexp : String → CompileOptions → CompiledMatcher)
    (st : CacheState) : Prop :=
  ∀ options path r, lookupEntry st options path = some r → r = pathToRegexp path options

/-! ### The `Router` component state machine (`Router.js`) -/

/-- The navigation state owned by one `Router` instance:
`this.state.location`, `this._isMounted` and `this._pendingLocation`. -/
structure RouterState where
  location : Location
  isMounted : Bool
  pendingLocation : Option Location
deriving Repr, DecidableEq

/-- The constructor of `Router` (non-static context): capture the
initial location, clear the mounted flag and the pending slot, and
subscribe to the history feed. -/
def mkRouterState (initial : Location) : RouterState :=
  { location := initial, isMounted := false, pendingLocation := none }

/-- The `history.listen` callback registered in the constructor:
apply the location when mounted, otherwise overwrite the single
pending-location slot. -/
def handleLocationChange (s : RouterState) (loc : Location) : RouterState :=
  if s.isMounted then { s with location := loc }
  else { s with pendingLocation := some loc }

/-- `componentDidMount`: set the mounted flag, then apply a pending
location (if any) via `setState`.  The source does not clear
`_pendingLocation` here. -/
def componentDidMount (s : RouterState) : RouterState :=
  let s1 := { s with isMounted := true }
  match s1.pendingLocation with
  | some loc => { s1 with location := loc }
  | none => s1

/-- `componentWillUnmount` (listener present): unsubscribe, clear the
mounted flag and the pending slot. -/
def componentWillUnmount (s : RouterState) : RouterState :=
  { s with isMounted := false, pendingLocation := none }

/-- `Router.computeRootMatch(pathname)`. -/
def computeRootMatch (pathname : String) : MatchResult :=
  { path := "/", url := "/", params := [], isExact := pathname = "/" }

/-! ### `Switch` and `Route` (`Switch.js`, `Route.js`) -/

/-- The router context read by `Switch` and `Route` from the nearest
`Router`: the current location and the inherited match. -/
structure RouterCtx where
  location : Location
  matched : Option MatchResult

/-- The props of a route-like element as far as matching is concerned:
`path`, `from`, and the matcher options forwarded to `matchPath`. -/
structure RouteElemProps where
  path : Option PathProp
  from_ : Option PathProp
  exact : Bool
  strict : Bool
  sensitive : Bool
deriving Repr, DecidableEq

/-- A child of a `Switch`: either not a valid React element (skipped by
the scan) or an element carrying route props. -/
inductive SwitchChild where
  | invalid
  | elem (props : RouteElemProps)
deriving Repr, DecidableEq

/-- `const path = child.props.path || child.props.from;` with
JavaScript truthiness of the prop values. -/
def effectivePathProp (props : RouteElemProps) : Option PathProp :=
  if pathPropTruthy props.path then props.path else props.from_

/-- The match computed by `Switch` for one examined child:
`path ? matchPath(location.pathname, { ...child.props, path }) : context.match`. -/
def switchChildMatch (compile : String → CompileOptions → CompiledMatcher)
    (location : Location) (ctx : RouterCtx) (props : RouteElemProps) :
    Option MatchResult :=
  let path := effectivePathProp props
  if pathPropTruthy path then
    matchPath compile location.pathname
      { path := path, exact := props.exact, strict := props.strict,
        sensitive := props.sensitive }
  else ctx.matched

/-- One step of the `React.Children.forEach` scan of `Switch.render`:
while no match has been found, every valid element becomes the
remembered `element` and its match is computed. -/
def switchStep (compile : String → CompileOptions → CompiledMatcher)
    (location : Location) (ctx : RouterCtx)
    (acc : Option SwitchChild × Option MatchResult) (child : SwitchChild) :
    Option SwitchChild × Option MatchResult :=
  match acc.2 with
  | some _ => acc
  | none =>
    match child with
    | .invalid => acc
    | .elem props => (some child, switchChildMatch compile location ctx props)

/-- `Switch.render` (context present): scan the children, then render
the remembered element with `location` and `computedMatch` when a match
was found, and `null` otherwise. -/
def switchRender (compile : String → CompileOptions → CompiledMatcher)
    (children : List SwitchChild) (selfLocation : Option Location)
    (ctx : RouterCtx) : Option (SwitchChild × Location × MatchResult) :=
  let location := selfLocation.getD ctx.location
  let scan := children.foldl (switchStep compile location ctx) (none, none)
  match scan with
  | (some e, some m) => some (e, location, m)
  | _ => none

/-- The selection a single `Switch` child would produce on its own:
`none` for invalid children, otherwise the child paired with its
(possibly inherited) match when that match is non-null. -/
def switchPick (compile : String → CompileOptions → CompiledMatcher)
    (location : Location) (ctx : RouterCtx) (child : SwitchChild) :
    Option (SwitchChild × MatchResult) :=
  match child with
  | .invalid => none
  | .elem props => (switchChildMatch compile location ctx props).map (fun m => (child, m))

/-- The `children` prop of a `Route`: a function, a fixed node (with
its JavaScript truthiness recorded), or the empty array produced by
Preact. -/
inductive ChildrenProp where
  | fn
  | node (truthy : Bool)
  | emptyArr
deriving Repr, DecidableEq

/-- The props of a `Route` instance. `component` and `render` record
whether a (truthy) value was supplied for the respective prop. -/
structure RouteProps where
  computedMatch : Option MatchResult
  path : Option PathProp
  location : Option Location
  exact : Bool
  strict : Bool
  sensitive : Bool
  children : Option ChildrenProp
  component : Bool
  render : Bool

/-- `const location = this.props.location || context.location;` -/
def routeLocation (props : RouteProps) (ctx : RouterCtx) : Location :=
  props.location.getD ctx.location

/-- The effective match of `Route.render`:
`computedMatch ? computedMatch : (path ? matchPath(location.pathname, this.props) : context.match)`. -/
def routeMatch (compile : String → CompileOptions → CompiledMatcher)
    (props : RouteProps) (ctx : RouterCtx) : Option MatchResult :=
  if props.computedMatch.isSome then props.computedMatch
  else if pathPropTruthy props.path then
    matchPath compile (routeLocation props ctx).pathname
      { path := props.path, exact := props.exact, strict := props.strict,
        sensitive := props.sensitive }
  else ctx.matched

/-- `if (Array.isArray(children) && isEmptyChildren(children)) children = null;` -/
def normChildren : Option ChildrenProp → Option ChildrenProp
  | some .emptyArr => none
  | c => c

/-- JavaScript truthiness of the (normalised) `children` variable:
functions and arrays are truthy, nodes carry their own truthiness,
`null`/`undefined` is falsy. -/
def childrenTruthy : Option ChildrenProp → Bool
  | none => false
  | some .fn => true
  | some (.node t) => t
  | some .emptyArr => true

/-- Which render strategy a `Route` invokes. -/
inductive RenderChoice where
  | childrenFnCall
  | childrenNode
  | componentCreate
  | renderCall
  | renderNull
deriving Repr, DecidableEq

/-- The render-strategy dispatch of `Route.render` (production build):
the nested conditional over `props.match`, `children`,
`typeof children === "function"`, `component` and `render`, applied to
the normalised `children`. -/
def routeRenderChoice (matchPresent : Bool) (children0 : Option ChildrenProp)
    (component render : Bool) : RenderChoice :=
  let children := normChildren children0
  if matchPresent then
    if childrenTruthy children then
      if children = some .fn then .childrenFnCall else .childrenNode
    else if component then .componentCreate
    else if render then .renderCall
    else .renderNull
  else
    if children = some .fn then .childrenFnCall else .renderNull

/-! ### Auxiliary notions and concrete matchers used in statements -/

/-- Holds when no falsy (nullish) candidate occurs after the first
matching candidate of the sequence; under this condition the reduce of
`matchPath` returns the first match. -/
def noResetAfterMatch (f : PathElem → Option MatchResult) :
    List PathElem → Bool
  | [] => true
  | p :: ps =>
    if (f p).isSome then ps.all (fun q => q ≠ PathElem.nullish)
    else noResetAfterMatch f ps

/-- A concrete stand-in for the external pattern compiler: the matcher
of a pattern string succeeds exactly on that literal pathname, with no
parameters.  Used to instantiate theorems at concrete inputs. -/
def demoCompile (p : String) (_ : CompileOptions) : CompiledMatcher :=
  { exec := fun pathname => if pathname = p then some (p, []) else none
    keys := [] }

/-- A concrete stand-in compiler with one named parameter: the matcher
behaves like the one `path-to-regexp` produces for `/one/:id` on the
pathname `/one/two`. -/
def demoParamCompile (_ : String) (_ : CompileOptions) : CompiledMatcher :=
  { exec := fun pathname =>
      if pathname = "/one/two" then some ("/one/two", [some "two"]) else none
    keys := ["id"] }

/-- A concrete stand-in compiler reproducing the root-pattern quirk:
the matcher of `"/"` captures the empty substring on the pathname
`"/"`. -/
def rootQuirkCompile (_ : String) (_ : CompileOptions) : CompiledMatcher :=
  { exec := fun pathname => if pathname = "/" then some ("", []) else none
    keys := [] }

/-! ## Lemmas about the candidate fold of `matchPath` -/

theorem foldl_matchOne_of_some (compile : String → CompileOptions → CompiledMatcher)
    (pathname : String) (e st se : Bool) (ps : List PathElem) (r : MatchResult)
    (h : PathElem.nullish ∉ ps) :
    ps.foldl (matchOne compile pathname e st se) (some r) = some r := by
  induction ps with
  | nil => rfl
  | cons p ps ih =>
    have hp : p ≠ PathElem.nullish := fun hpe => h (hpe ▸ List.mem_cons_self p ps)
    have hstep : matchOne compile pathname e st se (some r) p = some r := by
      cases p with
      | nullish => exact absurd rfl hp
      | str s => rfl
    rw [List.foldl_cons, hstep]
    exact ih (fun hm => h (List.mem_cons_of_mem p hm))

theorem foldl_matchOne_eq_findSome (compile : String → CompileOptions → CompiledMatcher)
    (pathname : String) (e st se : Bool) :
    ∀ ps : List PathElem,
      noResetAfterMatch (candMatch compile pathname e st se) ps = true →
      ps.foldl (matchOne compile pathname e st se) none =
        ps.findSome? (candMatch compile pathname e st se) := by
  intro ps
  induction ps with
  | nil => intro _; rfl
  | cons p ps ih =>
    intro hsafe
    rw [List.foldl_cons, List.findSome?_cons]
    show ps.foldl (matchOne compile pathname e st se)
        (candMatch compile pathname e st se p) = _
    cases hf : candMatch compile pathname e st se p with
    | some m =>
      unfold noResetAfterMatch at hsafe
      rw [hf] at hsafe
      simp only [Option.isSome_some, if_true] at hsafe
      have hnotin : PathElem.nullish ∉ ps := by
        intro hmem
        have := List.all_eq_true.mp hsafe _ hmem
        simp at this
      exact foldl_matchOne_of_some compile pathname e st se ps m hnotin
    | none =>
      unfold noResetAfterMatch at hsafe
      rw [hf] at hsafe
      simp only [Option.isSome_none, Bool.false_eq_true, if_false] at hsafe
      exact ih hsafe

/-- C1 (amended): matchPath folds the candidates in declaration order and,
provided no falsy (nullish) candidate occurs after the first matching one,
returns the first matching candidate with no later candidate changing the
result, and none when no candidate matches; a nullish candidate never
matches, a candidate whose compiled matcher fails never matches, a
candidate failing the exact check counts as non-matching (later
candidates are still tried through the fold), and a successful candidate
yields the match result built from its captured url and values.  Without
the proviso the original claim fails: a nullish candidate placed after a
successful one resets the accumulated result to none (see the
counterexample). -/
theorem c1_matchPath_first_matching_candidate
    (compile : String → CompileOptions → CompiledMatcher)
    (pathname : String) (options : MatchPathOptions)
    (hsafe : noResetAfterMatch
      (candMatch compile pathname options.exact options.strict options.sensitive)
      (pathCandidates options.path) = true) :
    matchPath compile pathname options =
      (pathCandidates options.path).findSome?
        (candMatch compile pathname options.exact options.strict options.sensitive) ∧
    candMatch compile pathname options.exact options.strict options.sensitive
      PathElem.nullish = none ∧
    (∀ s, (compile s ⟨options.exact, options.strict, options.sensitive⟩).exec pathname = none →
      candMatch compile pathname options.exact options.strict options.sensitive
        (PathElem.str s) = none) ∧
    (∀ s url values,
      (compile s ⟨options.exact, options.strict, options.sensitive⟩).exec pathname =
        some (url, values) →
      options.exact = true → pathname ≠ url →
      candMatch compile pathname options.exact options.strict options.sensitive
        (PathElem.str s) = none) ∧
    (∀ s url values,
      (compile s ⟨options.exact, options.strict, options.sensitive⟩).exec pathname =
        some (url, values) →
      options.exact = false ∨ pathname = url →
      candMatch compile pathname options.exact options.strict options.sensitive
        (PathElem.str s) =
        some { path := s
               url := if s = "/" ∧ url = "" then "/" else url
               isExact := decide (pathname = url)
               params := buildParams
                 (compile s ⟨options.exact, options.strict, options.sensitive⟩).keys
                 values }) := by
  refine ⟨?_, rfl, ?_, ?_, ?_⟩
  · exact foldl_matchOne_eq_findSome compile pathname
      options.exact options.strict options.sensitive (pathCandidates options.path) hsafe
  · intro s h
    simp [candMatch, matchOne, h]
  · intro s url values h hex hne
    rw [hex] at h
    simp [candMatch, matchOne, h, hex, hne]
  · intro s url values h hd
    cases hd with
    | inl hex =>
      rw [hex] at h
      simp [candMatch, matchOne, h, hex]
    | inr heq =>
      subst heq
      simp [candMatch, matchOne, h]

/-- C1 counterexample: against the pathname "/a", the candidate sequence
["/a", null] contains a first matching candidate "/a", yet matchPath
returns none, because the falsy-candidate guard runs before the
already-matched short-circuit and discards the accumulated match. -/
theorem c1_counterexample :
    candMatch demoCompile "/a" false false false (PathElem.str "/a") =
      some { path := "/a", url := "/a", isExact := true, params := [] } ∧
    matchPath demoCompile "/a"
      { path := some (.arr [.str "/a", .nullish]),
        exact := false, strict := false, sensitive := false } = none := by
  constructor
  · decide
  · decide

/-- C1 witness: a concrete run of the amended theorem, with a nullish
candidate before (not after) the matching one, so it is skipped and the
first matching candidate wins. -/
theorem c1_witness :
    noResetAfterMatch (candMatch demoCompile "/a" false false false)
      [PathElem.nullish, PathElem.str "/a"] = true ∧
    matchPath demoCompile "/a"
      { path := some (.arr [.nullish, .str "/a"]),
        exact := false, strict := false, sensitive := false } =
      [PathElem.nullish, PathElem.str "/a"].findSome?
        (candMatch demoCompile "/a" false false false) :=
  ⟨by decide,
   (c1_matchPath_first_matching_candidate demoCompile "/a"
     { path := some (.arr [.nullish, .str "/a"]),
       exact := false, strict := false, sensitive := false } (by decide)).1⟩

/-! ## Lemmas about association lists and `buildParams` -/

theorem aset_fresh {α β : Type} [DecidableEq α] (l : List (α × β)) (k : α) (v : β)
    (h : k ∉ l.map Prod.fst) : aset l k v = l ++ [(k, v)] := by
  induction l with
  | nil => rfl
  | cons hd tl ih =>
    have hne : hd.1 ≠ k := by
      intro he
      exact h (by simp [he])
    obtain ⟨k0, v0⟩ := hd
    simp only [aset, if_neg hne]
    rw [ih (fun hm => h (by simp at hm ⊢; exact Or.inr hm))]
    simp

theorem foldl_aset_of_nodup {α β γ : Type} [DecidableEq α]
    (key : γ → α) (val : γ → β) :
    ∀ (l : List γ) (memo : List (α × β)),
      (l.map key).Nodup →
      (∀ k ∈ memo.map Prod.fst, k ∉ l.map key) →
      l.foldl (fun m x => aset m (key x) (val x)) memo =
        memo ++ l.map (fun x => (key x, val x)) := by
  intro l
  induction l with
  | nil => intro memo _ _; simp
  | cons x l ih =>
    intro memo hnd hdisj
    have hx : key x ∉ memo.map Prod.fst := by
      intro hmem
      exact hdisj _ hmem (by simp)
    rw [List.foldl_cons, aset_fresh _ _ _ hx]
    have hnd1 : (l.map key).Nodup := by
      simp only [List.map_cons, List.nodup_cons] at hnd
      exact hnd.2
    have hxnotl : key x ∉ l.map key := by
      simp only [List.map_cons, List.nodup_cons] at hnd
      exact hnd.1
    rw [ih (memo ++ [(key x, val x)]) hnd1 ?_]
    · simp
    · intro k hk
      simp only [List.map_append, List.mem_append] at hk
      cases hk with
      | inl h0 => exact fun hm => hdisj _ h0 (by simp [hm])
      | inr h0 =>
        simp at h0
        exact h0 ▸ hxnotl

theorem buildParams_eq (keys : List String) (values : List (Option String))
    (h : keys.Nodup) :
    buildParams keys values =
      keys.enum.map (fun ki => (ki.2, (values.get? ki.1).join)) := by
  have := foldl_aset_of_nodup (Prod.snd : Nat × String → String)
    (fun ki => (values.get? ki.1).join) keys.enum [] (by simpa using h)
    (by intro k hk; simp at hk)
  simpa [buildParams] using this

/-- C5: for a successful match through a well-formed compiled matcher
(as many captured values as declared parameter names, no undefined
capture, distinct names), the params mapping binds exactly the declared
parameter names, in order, each to the captured substring at the same
position, and no name is bound to an undefined or absent value. -/
theorem c5_params_bind_declared_names
    (compile : String → CompileOptions → CompiledMatcher)
    (pathname s : String) (e st se : Bool)
    (url : String) (values : List (Option String)) (m : MatchResult)
    (hexec : (compile s ⟨e, st, se⟩).exec pathname = some (url, values))
    (hlen : values.length = (compile s ⟨e, st, se⟩).keys.length)
    (hdef : ∀ v ∈ values, v.isSome = true)
    (hnd : (compile s ⟨e, st, se⟩).keys.Nodup)
    (hm : candMatch compile pathname e st se (PathElem.str s) = some m) :
    m.params.map Prod.fst = (compile s ⟨e, st, se⟩).keys ∧
    ∀ i (hi : i < (compile s ⟨e, st, se⟩).keys.length),
      ∃ v : String, values.get? i = some (some v) ∧
        m.params.get? i =
          some ((compile s ⟨e, st, se⟩).keys.get ⟨i, hi⟩, some v) := by
  simp only [candMatch, matchOne, hexec] at hm
  have hparams : m.params = buildParams (compile s ⟨e, st, se⟩).keys values := by
    by_cases hcond : (e : Prop) ∧ ¬ pathname = url
    · rw [if_pos hcond] at hm
      exact absurd hm (by simp)
    · rw [if_neg hcond] at hm
      have := Option.some.inj hm
      rw [← this]
  rw [hparams, buildParams_eq _ _ hnd]
  constructor
  · rw [List.map_map]
    have hcomp : (Prod.fst ∘ fun ki : Nat × String =>
        (ki.2, (values.get? ki.1).join)) = Prod.snd := rfl
    rw [hcomp]
    simp
  · intro i hi
    have hv : i < values.length := by
      rw [hlen]; exact hi
    have hvget : values.get? i = some (values.get ⟨i, hv⟩) := List.get?_eq_get hv
    have hsome : (values.get ⟨i, hv⟩).isSome = true :=
      hdef _ (values.get_mem i hv)
    obtain ⟨v, hveq⟩ := Option.isSome_iff_exists.mp hsome
    refine ⟨v, by rw [hvget, hveq], ?_⟩
    have hki : (compile s ⟨e, st, se⟩).keys[i]? =
        some ((compile s ⟨e, st, se⟩).keys.get ⟨i, hi⟩) :=
      List.getElem?_eq_getElem hi
    have hvi : values[i]? = some (some v) := by
      rw [← List.get?_eq_getElem?, hvget, hveq]
    rw [List.get?_eq_getElem?, List.getElem?_map, List.getElem?_enum, hki]
    simp [hvi]

/-- C5 witness: the theorem applied to a concrete matcher with one
parameter name, behaving like the compilation of "/one/:id" on the
pathname "/one/two". -/
theorem c5_witness :
    ({ path := "/one/:id", url := "/one/two", isExact := true,
       params := [("id", some "two")] : MatchResult }).params.map Prod.fst =
      (demoParamCompile "/one/:id" ⟨false, false, false⟩).keys ∧
    ∀ i (hi : i < (demoParamCompile "/one/:id" ⟨false, false, false⟩).keys.length),
      ∃ v : String, ([some "two"] : List (Option String)).get? i = some (some v) ∧
        ({ path := "/one/:id", url := "/one/two", isExact := true,
           params := [("id", some "two")] : MatchResult }).params.get? i =
          some ((demoParamCompile "/one/:id" ⟨false, false, false⟩).keys.get ⟨i, hi⟩,
            some v) :=
  c5_params_bind_declared_names demoParamCompile "/one/two" "/one/:id"
    false false false "/one/two" [some "two"]
    { path := "/one/:id", url := "/one/two", isExact := true,
      params := [("id", some "two")] }
    (by decide) (by decide) (by decide) (by decide) (by decide)

/-- C9: matching the root pattern "/" against the pathname "/"
(compiled matcher succeeding with a captured prefix of the pathname)
returns a match whose url is exactly "/", never the empty string; in
general a captured empty full match for the pattern "/" is normalised
to "/", while for any other pattern the url is the captured substring
unchanged. -/
theorem c9_root_url_normalisation
    (compile : String → CompileOptions → CompiledMatcher)
    (url : String) (values : List (Option String))
    (hexec : (compile "/" ⟨false, false, false⟩).exec "/" = some (url, values))
    (hpre : url.data <+: "/".data) :
    (∃ m, matchPath compile "/"
        { path := some (.single "/"), exact := false, strict := false,
          sensitive := false } = some m ∧ m.url = "/") ∧
    (∀ (compile1 : String → CompileOptions → CompiledMatcher)
        (pathname s : String) (e st se : Bool) (m1 : MatchResult),
      candMatch compile1 pathname e st se (PathElem.str s) = some m1 →
      ∃ u vs, (compile1 s ⟨e, st, se⟩).exec pathname = some (u, vs) ∧
        m1.url = if s = "/" ∧ u = "" then "/" else u) := by
  constructor
  · have hurl : url = "" ∨ url = "/" := by
      obtain ⟨t, ht⟩ := hpre
      obtain ⟨l⟩ := url
      cases l with
      | nil => left; rfl
      | cons c cs =>
        right
        simp only [List.cons_append] at ht
        injection ht with h1 h2
        have hcs : cs = [] := (List.append_eq_nil.mp h2).1
        rw [h1, hcs]
    show (∃ m, List.foldl (matchOne compile "/" false false false) none
      [PathElem.str "/"] = some m ∧ m.url = "/")
    cases hurl with
    | inl h0 =>
      subst h0
      refine ⟨{ path := "/", url := "/", isExact := false,
                params := buildParams (compile "/" ⟨false, false, false⟩).keys values },
              ?_, rfl⟩
      show matchOne compile "/" false false false none (PathElem.str "/") = _
      simp [matchOne, hexec]
    | inr h0 =>
      subst h0
      refine ⟨{ path := "/", url := "/", isExact := true,
                params := buildParams (compile "/" ⟨false, false, false⟩).keys values },
              ?_, rfl⟩
      show matchOne compile "/" false false false none (PathElem.str "/") = _
      simp [matchOne, hexec]
  · intro compile1 pathname s e st se m1 hm
    simp only [candMatch, matchOne] at hm
    cases hex : (compile1 s ⟨e, st, se⟩).exec pathname with
    | none =>
      simp only [hex] at hm
      exact Option.noConfusion hm
    | some p =>
      obtain ⟨u, vs⟩ := p
      simp only [hex] at hm
      refine ⟨u, vs, rfl, ?_⟩
      by_cases hcond : (e : Prop) ∧ ¬ pathname = u
      · rw [if_pos hcond] at hm
        exact absurd hm (by simp)
      · rw [if_neg hcond] at hm
        have := Option.some.inj hm
        rw [← this]

/-- C9 witness: the theorem applied to a compiler reproducing the
regular-expression quirk in which the root pattern captures the empty
substring; the url of the result is still "/". -/
theorem c9_witness :
    ∃ m, matchPath rootQuirkCompile "/"
      { path := some (.single "/"), exact := false, strict := false,
        sensitive := false } = some m ∧ m.url = "/" :=
  (c9_root_url_normalisation rootQuirkCompile "" [] (by decide)
    ⟨"/".data, rfl⟩).1

/-! ## Lemmas about the compilation cache -/

theorem alookup_aset_self {α β : Type} [DecidableEq α]
    (l : List (α × β)) (k : α) (v : β) :
    alookup (aset l k v) k = some v := by
  induction l with
  | nil => simp [aset, alookup]
  | cons hd tl ih =>
    obtain ⟨k0, v0⟩ := hd
    by_cases h : k0 = k
    · simp [aset, h, alookup]
    · simp [aset, h, alookup, ih]

theorem alookup_aset_ne {α β : Type} [DecidableEq α]
    (l : List (α × β)) (k k1 : α) (v : β) (h : k1 ≠ k) :
    alookup (aset l k v) k1 = alookup l k1 := by
  induction l with
  | nil => simp [aset, alookup, Ne.symm h]
  | cons hd tl ih =>
    obtain ⟨k0, v0⟩ := hd
    by_cases h0 : k0 = k
    · subst h0
      simp [aset, alookup, Ne.symm h]
    · simp only [aset, if_neg h0, alookup]
      by_cases h1 : k0 = k1
      · simp [h1]
      · simp [h1, ih]

theorem jsBool_triple_inj : ∀ a b c d e f : Bool,
    jsBool a ++ jsBool b ++ jsBool c = jsBool d ++ jsBool e ++ jsBool f →
    a = d ∧ b = e ∧ c = f := by decide

theorem cacheKey_inj (o o1 : CompileOptions) (h : cacheKey o = cacheKey o1) :
    o = o1 := by
  obtain ⟨a, b, c⟩ := o
  obtain ⟨d, e, f⟩ := o1
  obtain ⟨rfl, rfl, rfl⟩ := jsBool_triple_inj a b c d e f h
  rfl

theorem lookupEntry_congr_key (st : CacheState) (o o1 : CompileOptions)
    (p : String) (h : cacheKey o = cacheKey o1) :
    lookupEntry st o p = lookupEntry st o1 p := by
  unfold lookupEntry
  rw [h]

theorem compilePath_hit (ptr : String → CompileOptions → CompiledMatcher)
    (p : String) (o : CompileOptions) (st : CacheState) (r : CompiledMatcher)
    (h : lookupEntry st o p = some r) :
    compilePath ptr p o st = (r, st) := by
  unfold lookupEntry at h
  cases hb : alookup st.cache (cacheKey o) with
  | none => rw [hb] at h; exact Option.noConfusion h
  | some pc =>
    rw [hb, Option.some_bind] at h
    unfold compilePath
    simp only [hb, Option.getD_some, h]

theorem compilePath_miss_insert (ptr : String → CompileOptions → CompiledMatcher)
    (p : String) (o : CompileOptions) (st : CacheState)
    (hmiss : lookupEntry st o p = none) (hlt : st.cacheCount < cacheLimit) :
    (compilePath ptr p o st).1 = ptr p o ∧
    (compilePath ptr p o st).2.cacheCount = st.cacheCount + 1 ∧
    lookupEntry (compilePath ptr p o st).2 o p = some (ptr p o) ∧
    (∀ o1 p1, ¬ (cacheKey o1 = cacheKey o ∧ p1 = p) →
      lookupEntry (compilePath ptr p o st).2 o1 p1 = lookupEntry st o1 p1) := by
  unfold lookupEntry at hmiss
  cases hb : alookup st.cache (cacheKey o) with
  | some pc =>
    rw [hb, Option.some_bind] at hmiss
    have hcp : compilePath ptr p o st =
        (ptr p o,
         { cache := aset st.cache (cacheKey o) (aset pc p (ptr p o))
           cacheCount := st.cacheCount + 1 }) := by
      unfold compilePath
      simp only [hb, Option.getD_some, hmiss, if_pos hlt]
    rw [hcp]
    refine ⟨rfl, rfl, ?_, ?_⟩
    · unfold lookupEntry
      simp only [alookup_aset_self, Option.some_bind]
    · intro o1 p1 hne
      unfold lookupEntry
      by_cases hk : cacheKey o1 = cacheKey o
      · have hp1 : p1 ≠ p := fun he => hne ⟨hk, he⟩
        simp only [hk, alookup_aset_self, Option.some_bind, hb]
        exact alookup_aset_ne pc p p1 (ptr p o) hp1
      · simp only [alookup_aset_ne st.cache (cacheKey o) (cacheKey o1) _ hk]
  | none =>
    have hcp : compilePath ptr p o st =
        (ptr p o,
         { cache := aset (aset st.cache (cacheKey o) []) (cacheKey o)
             (aset [] p (ptr p o))
           cacheCount := st.cacheCount + 1 }) := by
      unfold compilePath
      simp only [hb, alookup_aset_self, Option.getD_some, alookup, if_pos hlt]
    rw [hcp]
    refine ⟨rfl, rfl, ?_, ?_⟩
    · unfold lookupEntry
      simp only [alookup_aset_self, Option.some_bind]
    · intro o1 p1 hne
      unfold lookupEntry
      by_cases hk : cacheKey o1 = cacheKey o
      · have hp1 : p1 ≠ p := fun he => hne ⟨hk, he⟩
        simp only [hk, alookup_aset_self, Option.some_bind, hb]
        rw [alookup_aset_ne [] p p1 (ptr p o) hp1]
        rfl
      · rw [alookup_aset_ne _ (cacheKey o) (cacheKey o1) _ hk,
          alookup_aset_ne _ (cacheKey o) (cacheKey o1) _ hk]

theorem compilePath_miss_full (ptr : String → CompileOptions → CompiledMatcher)
    (p : String) (o : CompileOptions) (st : CacheState)
    (hmiss : lookupEntry st o p = none) (hge : cacheLimit ≤ st.cacheCount) :
    (compilePath ptr p o st).1 = ptr p o ∧
    (compilePath ptr p o st).2.cacheCount = st.cacheCount ∧
    ∀ o1 p1, lookupEntry (compilePath ptr p o st).2 o1 p1 = lookupEntry st o1 p1 := by
  have hnlt : ¬ st.cacheCount < cacheLimit := Nat.not_lt.mpr hge
  unfold lookupEntry at hmiss
  cases hb : alookup st.cache (cacheKey o) with
  | some pc =>
    rw [hb, Option.some_bind] at hmiss
    have hcp : compilePath ptr p o st = (ptr p o, st) := by
      unfold compilePath
      simp only [hb, Option.getD_some, hmiss, if_neg hnlt]
    rw [hcp]
    exact ⟨rfl, rfl, fun o1 p1 => rfl⟩
  | none =>
    have hcp : compilePath ptr p o st =
        (ptr p o, { st with cache := aset st.cache (cacheKey o) [] }) := by
      unfold compilePath
      simp only [hb, alookup_aset_self, Option.getD_some, alookup, if_neg hnlt]
    rw [hcp]
    refine ⟨rfl, rfl, ?_⟩
    intro o1 p1
    unfold lookupEntry
    by_cases hk : cacheKey o1 = cacheKey o
    · simp only [hk, alookup_aset_self, Option.some_bind, hb]
      rfl
    · rw [alookup_aset_ne _ (cacheKey o) (cacheKey o1) _ hk]

theorem compilePath_fst_of_wf (ptr : String → CompileOptions → CompiledMatcher)
    (p : String) (o : CompileOptions) (st : CacheState)
    (hwf : WFCache ptr st) :
    (compilePath ptr p o st).1 = ptr p o := by
  cases hmp : lookupEntry st o p with
  | some r =>
    rw [compilePath_hit ptr p o st r hmp]
    exact hwf o p r hmp
  | none =>
    by_cases hlt : st.cacheCount < cacheLimit
    · exact (compilePath_miss_insert ptr p o st hmp hlt).1
    · exact (compilePath_miss_full ptr p o st hmp (Nat.not_lt.mp hlt)).1

/-- C4: the caching policy of compilePath.  (1) a cached entry for a
(pattern, options) pair is returned as is, with the module state
untouched, so an entry is compiled at most once and the same cached
object is returned on every later call; (2) on a miss below the
capacity limit the freshly compiled matcher is inserted and the counter
bumped; (3) on a miss at or above the limit the matcher is recomputed
on every call, nothing is inserted and the counter is unchanged;
(4) existing entries are never evicted by any call; (5) on a
well-formed cache the returned matcher always equals the direct
compilation, so (6) matchPath through the cache, including past the
limit, computes the same results as matchPath over the bare
compiler. -/
theorem c4_compilePath_cache_policy
    (ptr : String → CompileOptions → CompiledMatcher)
    (p : String) (o : CompileOptions) (st : CacheState) :
    (∀ r, lookupEntry st o p = some r → compilePath ptr p o st = (r, st)) ∧
    (lookupEntry st o p = none → st.cacheCount < cacheLimit →
      (compilePath ptr p o st).1 = ptr p o ∧
      (compilePath ptr p o st).2.cacheCount = st.cacheCount + 1 ∧
      lookupEntry (compilePath ptr p o st).2 o p = some (ptr p o)) ∧
    (lookupEntry st o p = none → cacheLimit ≤ st.cacheCount →
      (compilePath ptr p o st).1 = ptr p o ∧
      (compilePath ptr p o st).2.cacheCount = st.cacheCount ∧
      ∀ o1 p1, lookupEntry (compilePath ptr p o st).2 o1 p1 =
        lookupEntry st o1 p1) ∧
    (∀ o1 p1 r1, lookupEntry st o1 p1 = some r1 →
      lookupEntry (compilePath ptr p o st).2 o1 p1 = some r1) ∧
    (WFCache ptr st →
      (compilePath ptr p o st).1 = ptr p o ∧
      WFCache ptr (compilePath ptr p o st).2) ∧
    (WFCache ptr st → ∀ pathname opts,
      matchPath (fun q oo => (compilePath ptr q oo st).1) pathname opts =
        matchPath ptr pathname opts) := by
  have hnoEvict : ∀ o1 p1 r1, lookupEntry st o1 p1 = some r1 →
      lookupEntry (compilePath ptr p o st).2 o1 p1 = some r1 := by
    intro o1 p1 r1 h1
    cases hmp : lookupEntry st o p with
    | some r =>
      rw [compilePath_hit ptr p o st r hmp]
      exact h1
    | none =>
      by_cases hlt : st.cacheCount < cacheLimit
      · obtain ⟨-, -, hself, hother⟩ := compilePath_miss_insert ptr p o st hmp hlt
        by_cases hk : cacheKey o1 = cacheKey o ∧ p1 = p
        · exfalso
          rw [hk.2] at h1
          rw [lookupEntry_congr_key st o1 o p hk.1] at h1
          rw [hmp] at h1
          exact Option.noConfusion h1
        · rw [hother o1 p1 hk]
          exact h1
      · obtain ⟨-, -, hall⟩ :=
          compilePath_miss_full ptr p o st hmp (Nat.not_lt.mp hlt)
        rw [hall o1 p1]
        exact h1
  have hwfres : WFCache ptr st →
      (compilePath ptr p o st).1 = ptr p o ∧
      WFCache ptr (compilePath ptr p o st).2 := by
    intro hwf
    cases hmp : lookupEntry st o p with
    | some r =>
      rw [compilePath_hit ptr p o st r hmp]
      exact ⟨hwf o p r hmp, hwf⟩
    | none =>
      by_cases hlt : st.cacheCount < cacheLimit
      · obtain ⟨h1, -, hself, hother⟩ :=
          compilePath_miss_insert ptr p o st hmp hlt
        refine ⟨h1, ?_⟩
        intro o1 p1 r1 hl1
        by_cases hk : cacheKey o1 = cacheKey o ∧ p1 = p
        · have ho : o1 = o := cacheKey_inj o1 o hk.1
          subst ho
          rw [hk.2] at hl1 ⊢
          rw [hself] at hl1
          exact (Option.some.inj hl1).symm
        · rw [hother o1 p1 hk] at hl1
          exact hwf o1 p1 r1 hl1
      · obtain ⟨h1, -, hall⟩ :=
          compilePath_miss_full ptr p o st hmp (Nat.not_lt.mp hlt)
        refine ⟨h1, ?_⟩
        intro o1 p1 r1 hl1
        rw [hall o1 p1] at hl1
        exact hwf o1 p1 r1 hl1
  refine ⟨?_, ?_, ?_, hnoEvict, hwfres, ?_⟩
  · intro r h
    exact compilePath_hit ptr p o st r h
  · intro hmiss hlt
    obtain ⟨h1, h2, h3, -⟩ := compilePath_miss_insert ptr p o st hmiss hlt
    exact ⟨h1, h2, h3⟩
  · intro hmiss hge
    exact compilePath_miss_full ptr p o st hmiss hge
  · intro hwf pathname opts
    have hfun : (fun q oo => (compilePath ptr q oo st).1) = ptr := by
      funext q oo
      exact compilePath_fst_of_wf ptr q oo st hwf
    rw [hfun]

/-- C4 witness: the cache-policy theorem applied to the empty module
state (which is well formed) and a concrete compiler: first call
compiles and inserts, bumping the counter, and matchPath through the
cached layer agrees with matchPath over the bare compiler. -/
theorem c4_witness :
    (compilePath demoCompile "/a" ⟨false, false, false⟩ emptyCacheState).1 =
      demoCompile "/a" ⟨false, false, false⟩ ∧
    (compilePath demoCompile "/a" ⟨false, false, false⟩
      emptyCacheState).2.cacheCount = 1 ∧
    lookupEntry (compilePath demoCompile "/a" ⟨false, false, false⟩
      emptyCacheState).2 ⟨false, false, false⟩ "/a" =
      some (demoCompile "/a" ⟨false, false, false⟩) ∧
    matchPath (fun q oo => (compilePath demoCompile q oo emptyCacheState).1)
      "/a" { path := some (.single "/a"), exact := false, strict := false,
             sensitive := false } =
      matchPath demoCompile "/a"
        { path := some (.single "/a"), exact := false, strict := false,
          sensitive := false } := by
  have hwf : WFCache demoCompile emptyCacheState := by
    intro o1 p1 r1 h1
    exact Option.noConfusion h1
  have h := c4_compilePath_cache_policy demoCompile "/a" ⟨false, false, false⟩
    emptyCacheState
  obtain ⟨h1, h2, h3⟩ := h.2.1 rfl (by decide)
  exact ⟨h1, h2, h3, h.2.2.2.2.2 hwf "/a" _⟩

/-! ## Lemmas about the `Router` state machine -/

theorem componentDidMount_eq (s : RouterState) :
    componentDidMount s =
      match s.pendingLocation with
      | some l => { s with isMounted := true, location := l }
      | none => { s with isMounted := true } := by
  obtain ⟨loc, m, pend⟩ := s
  cases pend <;> rfl

theorem handleLocationChange_not_mounted (s : RouterState)
    (h : s.isMounted = false) (loc : Location) :
    handleLocationChange s loc = { s with pendingLocation := some loc } := by
  unfold handleLocationChange
  rw [h]
  rfl

theorem foldl_handleLocationChange (s : RouterState) (h : s.isMounted = false)
    (locs : List Location) :
    (locs.foldl handleLocationChange s).location = s.location ∧
    (locs.foldl handleLocationChange s).isMounted = false ∧
    (locs.foldl handleLocationChange s).pendingLocation =
      (match locs.getLast? with
       | some l => some l
       | none => s.pendingLocation) := by
  induction locs using List.reverseRecOn with
  | nil => exact ⟨rfl, h, rfl⟩
  | append_singleton l a ih =>
    obtain ⟨h1, h2, h3⟩ := ih
    have hstep : (l ++ [a]).foldl handleLocationChange s =
        { l.foldl handleLocationChange s with pendingLocation := some a } := by
      rw [List.foldl_append]
      show handleLocationChange (l.foldl handleLocationChange s) a = _
      rw [handleLocationChange_not_mounted _ h2]
    rw [hstep, List.getLast?_concat]
    exact ⟨h1, h2, rfl⟩

/-- C2: every feed callback delivered while the Router is not yet
mounted overwrites only the single pending-location slot (leaving the
current location untouched), only the most recent pending value is
retained after any pre-mount callback sequence, and on mounting the
current location becomes the last pending value observed, or stays the
initial location when no callback fired. -/
theorem c2_premount_buffering (init : Location) (locs : List Location) :
    (∀ s loc, s.isMounted = false →
      handleLocationChange s loc = { s with pendingLocation := some loc }) ∧
    (locs.foldl handleLocationChange (mkRouterState init)).location = init ∧
    (locs.foldl handleLocationChange (mkRouterState init)).pendingLocation =
      locs.getLast? ∧
    (componentDidMount
      (locs.foldl handleLocationChange (mkRouterState init))).location =
      locs.getLast?.getD init := by
  obtain ⟨h1, h2, h3⟩ :=
    foldl_handleLocationChange (mkRouterState init) rfl locs
  refine ⟨?_, h1, ?_, ?_⟩
  · intro s loc hs
    exact handleLocationChange_not_mounted s hs loc
  · rw [h3]
    cases locs.getLast? <;> rfl
  · rw [componentDidMount_eq]
    cases hl : locs.getLast? with
    | some l =>
      have hp : (locs.foldl handleLocationChange
          (mkRouterState init)).pendingLocation = some l := by
        rw [h3, hl]
      rw [hp]
      rfl
    | none =>
      have hp : (locs.foldl handleLocationChange
          (mkRouterState init)).pendingLocation = none := by
        rw [h3, hl]
        rfl
      rw [hp]
      exact h1

/-- C2 witness: a concrete run with two pre-mount callbacks: the first
pending value is discarded, the second becomes the current location on
mount. -/
theorem c2_witness :
    handleLocationChange
        { location := ⟨"/"⟩, isMounted := false, pendingLocation := none }
        ⟨"/a"⟩ =
      { location := ⟨"/"⟩, isMounted := false,
        pendingLocation := some ⟨"/a"⟩ } ∧
    (componentDidMount
      (([⟨"/a"⟩, ⟨"/b"⟩] : List Location).foldl handleLocationChange
        (mkRouterState ⟨"/"⟩))).location = ⟨"/b"⟩ := by
  have h := c2_premount_buffering ⟨"/"⟩ [⟨"/a"⟩, ⟨"/b"⟩]
  exact ⟨h.1 _ ⟨"/a"⟩ rfl, (h.2.2.2).trans (by decide)⟩

/-- C3 counterexample: after one pre-mount feed callback, the transition
to MOUNTED applies the pending location but does not clear the pending
slot: the resulting state is mounted with a non-empty pending slot,
contradicting the claimed invariant. -/
theorem c3_counterexample :
    (componentDidMount
      (handleLocationChange (mkRouterState ⟨"/"⟩) ⟨"/a"⟩)).isMounted = true ∧
    (componentDidMount
      (handleLocationChange (mkRouterState ⟨"/"⟩) ⟨"/a"⟩)).pendingLocation =
      some ⟨"/a"⟩ :=
  ⟨rfl, rfl⟩

/-- C3 (amended): the transition to MOUNTED applies any pending
location as the current location but leaves the pending slot unchanged;
the slot is cleared only by the unmount transition.  (The stale pending
value is never applied again, because later feed callbacks see the
mounted flag set.) -/
theorem c3_mount_applies_pending_without_clearing (s : RouterState)
    (l : Location) :
    (s.pendingLocation = some l →
      componentDidMount s = { s with isMounted := true, location := l }) ∧
    (s.pendingLocation = none →
      componentDidMount s = { s with isMounted := true }) ∧
    componentWillUnmount s =
      { s with isMounted := false, pendingLocation := none } := by
  refine ⟨?_, ?_, rfl⟩
  · intro hp
    rw [componentDidMount_eq, hp]
  · intro hp
    rw [componentDidMount_eq, hp]

/-- C3 witness: the amended theorem applied to concrete states with and
without a pending location. -/
theorem c3_witness :
    componentDidMount
        { location := ⟨"/"⟩, isMounted := false,
          pendingLocation := some ⟨"/a"⟩ } =
      { location := ⟨"/a"⟩, isMounted := true,
        pendingLocation := some ⟨"/a"⟩ } ∧
    componentDidMount
        { location := ⟨"/"⟩, isMounted := false, pendingLocation := none } =
      { location := ⟨"/"⟩, isMounted := true, pendingLocation := none } :=
  ⟨(c3_mount_applies_pending_without_clearing
      { location := ⟨"/"⟩, isMounted := false, pendingLocation := some ⟨"/a"⟩ }
      ⟨"/a"⟩).1 rfl,
   (c3_mount_applies_pending_without_clearing
      { location := ⟨"/"⟩, isMounted := false, pendingLocation := none }
      ⟨"/a"⟩).2.1 rfl⟩

/-! ## Lemmas about the `Switch` scan -/

theorem switch_foldl_found (compile : String → CompileOptions → CompiledMatcher)
    (loc : Location) (ctx : RouterCtx) (cs : List SwitchChild)
    (e : Option SwitchChild) (m : MatchResult) :
    cs.foldl (switchStep compile loc ctx) (e, some m) = (e, some m) := by
  induction cs with
  | nil => rfl
  | cons c cs ih =>
    rw [List.foldl_cons]
    exact ih

theorem switch_scan_eq_findSome
    (compile : String → CompileOptions → CompiledMatcher)
    (loc : Location) (ctx : RouterCtx) :
    ∀ (cs : List SwitchChild) (e0 : Option SwitchChild),
      (match cs.foldl (switchStep compile loc ctx) (e0, none) with
       | (some e, some m) => some (e, m)
       | _ => none) = cs.findSome? (switchPick compile loc ctx) := by
  intro cs
  induction cs with
  | nil =>
    intro e0
    cases e0 <;> rfl
  | cons c cs ih =>
    intro e0
    rw [List.foldl_cons, List.findSome?_cons]
    cases c with
    | invalid =>
      have hstep : switchStep compile loc ctx (e0, none) SwitchChild.invalid =
          (e0, none) := rfl
      rw [hstep, ih e0]
      rfl
    | elem props =>
      cases hm : switchChildMatch compile loc ctx props with
      | some m =>
        have hstep : switchStep compile loc ctx (e0, none)
            (SwitchChild.elem props) =
            (some (SwitchChild.elem props), some m) := by
          simp [switchStep, hm]
        rw [hstep, switch_foldl_found]
        simp [switchPick, hm]
      | none =>
        have hstep : switchStep compile loc ctx (e0, none)
            (SwitchChild.elem props) =
            (some (SwitchChild.elem props), none) := by
          simp [switchStep, hm]
        rw [hstep, ih (some (SwitchChild.elem props))]
        simp [switchPick, hm]

theorem switchRender_eq_findSome
    (compile : String → CompileOptions → CompiledMatcher)
    (children : List SwitchChild) (selfLocation : Option Location)
    (ctx : RouterCtx) :
    switchRender compile children selfLocation ctx =
      (children.findSome?
        (switchPick compile (selfLocation.getD ctx.location) ctx)).map
        (fun em => (em.1, selfLocation.getD ctx.location, em.2)) := by
  simp only [switchRender]
  rw [← switch_scan_eq_findSome compile (selfLocation.getD ctx.location) ctx
    children none]
  cases hs : children.foldl
      (switchStep compile (selfLocation.getD ctx.location) ctx) (none, none) with
  | mk fst snd =>
    cases fst <;> cases snd <;> rfl

/-- C6: Switch selects exactly the first valid element child whose
effective pattern (path prop, or from prop when path is falsy) matches
the location, a pattern-less valid child inheriting the (present)
ancestor context match; only that child is rendered, together with the
location and the precomputed match handed to it as computedMatch; and
children after the first matching one never have their resolution
logic evaluated (they cannot influence the result). -/
theorem c6_switch_selects_first_match
    (compile : String → CompileOptions → CompiledMatcher)
    (children : List SwitchChild) (selfLocation : Option Location)
    (ctx : RouterCtx) :
    switchRender compile children selfLocation ctx =
      (children.findSome?
        (switchPick compile (selfLocation.getD ctx.location) ctx)).map
        (fun em => (em.1, selfLocation.getD ctx.location, em.2)) ∧
    (∀ props m, pathPropTruthy props.path = false →
      pathPropTruthy props.from_ = false → ctx.matched = some m →
      switchPick compile (selfLocation.getD ctx.location) ctx
        (SwitchChild.elem props) = some (SwitchChild.elem props, m)) ∧
    (∀ cs1 c cs2,
      (cs1.findSome?
        (switchPick compile (selfLocation.getD ctx.location) ctx)).isSome = true →
      switchRender compile (cs1 ++ c :: cs2) selfLocation ctx =
        switchRender compile cs1 selfLocation ctx) := by
  refine ⟨switchRender_eq_findSome compile children selfLocation ctx, ?_, ?_⟩
  · intro props m h1 h2 h3
    simp [switchPick, switchChildMatch, effectivePathProp, h1, h2, h3]
  · intro cs1 c cs2 hfound
    rw [switchRender_eq_findSome, switchRender_eq_findSome,
      List.findSome?_append]
    obtain ⟨b, hb⟩ := Option.isSome_iff_exists.mp hfound
    rw [hb]
    rfl

/-- C6 witness: with the location "/a", a Switch over an invalid child,
a child for "/b" and a child for "/a" renders the "/a" child with the
precomputed match; a pattern-less child inherits the root match; and
appending children after a matching one does not change the result. -/
theorem c6_witness :
    switchRender demoCompile
      [SwitchChild.invalid,
       SwitchChild.elem
         { path := some (.single "/b"), from_ := none,
           exact := false, strict := false, sensitive := false },
       SwitchChild.elem
         { path := some (.single "/a"), from_ := none,
           exact := false, strict := false, sensitive := false }]
      none { location := ⟨"/a"⟩, matched := some (computeRootMatch "/a") } =
      some (SwitchChild.elem
          { path := some (.single "/a"), from_ := none,
            exact := false, strict := false, sensitive := false },
        ⟨"/a"⟩, { path := "/a", url := "/a", isExact := true, params := [] }) ∧
    switchPick demoCompile ⟨"/a"⟩
      { location := ⟨"/a"⟩, matched := some (computeRootMatch "/a") }
      (SwitchChild.elem
        { path := none, from_ := none, exact := false,
          strict := false, sensitive := false }) =
      some (SwitchChild.elem
        { path := none, from_ := none, exact := false,
          strict := false, sensitive := false }, computeRootMatch "/a") ∧
    switchRender demoCompile
      [SwitchChild.elem
         { path := some (.single "/a"), from_ := none,
           exact := false, strict := false, sensitive := false },
       SwitchChild.elem
         { path := some (.single "/b"), from_ := none,
           exact := false, strict := false, sensitive := false }]
      none { location := ⟨"/a"⟩, matched := some (computeRootMatch "/a") } =
      switchRender demoCompile
        [SwitchChild.elem
           { path := some (.single "/a"), from_ := none,
             exact := false, strict := false, sensitive := false }]
        none { location := ⟨"/a"⟩, matched := some (computeRootMatch "/a") } := by
  have h := c6_switch_selects_first_match demoCompile
    [SwitchChild.invalid,
     SwitchChild.elem
       { path := some (.single "/b"), from_ := none,
         exact := false, strict := false, sensitive := false },
     SwitchChild.elem
       { path := some (.single "/a"), from_ := none,
         exact := false, strict := false, sensitive := false }]
    none { location := ⟨"/a"⟩, matched := some (computeRootMatch "/a") }
  refine ⟨h.1.trans (by decide), h.2.1 _ _ rfl rfl rfl, ?_⟩
  exact h.2.2
    [SwitchChild.elem
       { path := some (.single "/a"), from_ := none,
         exact := false, strict := false, sensitive := false }]
    (SwitchChild.elem
       { path := some (.single "/b"), from_ := none,
         exact := false, strict := false, sensitive := false })
    [] (by decide)

/-- C7: the effective match of a Route is the computedMatch prop
verbatim when supplied; otherwise, when a (truthy) path prop is
present, the result of matchPath on the pathname of the location used
(the own location prop when provided, else the inherited context
location, folded into one value by getD); otherwise the inherited
context match unchanged. -/
theorem c7_route_effective_match
    (compile : String → CompileOptions → CompiledMatcher)
    (props : RouteProps) (ctx : RouterCtx) :
    (∀ m, props.computedMatch = some m →
      routeMatch compile props ctx = some m) ∧
    (props.computedMatch = none → pathPropTruthy props.path = true →
      routeMatch compile props ctx =
        matchPath compile (props.location.getD ctx.location).pathname
          { path := props.path, exact := props.exact, strict := props.strict,
            sensitive := props.sensitive }) ∧
    (props.computedMatch = none → props.path = none →
      routeMatch compile props ctx = ctx.matched) := by
  refine ⟨?_, ?_, ?_⟩
  · intro m h
    simp [routeMatch, h]
  · intro h1 h2
    simp [routeMatch, routeLocation, h1, h2]
  · intro h1 h2
    simp [routeMatch, h1, h2, pathPropTruthy]

/-- C7 witness: the three dispatch branches at concrete props: a
supplied computedMatch wins, a truthy path triggers matchPath on the
local location, and an absent path inherits the context match. -/
theorem c7_witness :
    routeMatch demoCompile
      { computedMatch := some (computeRootMatch "/x"), path := some (.single "/a"),
        location := none, exact := false, strict := false, sensitive := false,
        children := none, component := false, render := false }
      { location := ⟨"/a"⟩, matched := none } = some (computeRootMatch "/x") ∧
    routeMatch demoCompile
      { computedMatch := none, path := some (.single "/a"),
        location := some ⟨"/a"⟩, exact := false, strict := false,
        sensitive := false, children := none, component := false,
        render := false }
      { location := ⟨"/b"⟩, matched := none } =
      matchPath demoCompile "/a"
        { path := some (.single "/a"), exact := false, strict := false,
          sensitive := false } ∧
    routeMatch demoCompile
      { computedMatch := none, path := none, location := none, exact := false,
        strict := false, sensitive := false, children := none,
        component := false, render := false }
      { location := ⟨"/a"⟩, matched := some (computeRootMatch "/a") } =
      some (computeRootMatch "/a") :=
  ⟨(c7_route_effective_match demoCompile _ _).1 _ rfl,
   (c7_route_effective_match demoCompile _ _).2.1 rfl rfl,
   (c7_route_effective_match demoCompile _ _).2.2 rfl rfl⟩

/-- C8: with a present match the single invoked render strategy follows
the priority order children-as-function, then (truthy) fixed children,
then component, then render, else nothing; with an absent match only a
children-as-function strategy is invoked and everything else renders
nothing.  The normalised children value is the one the source computes
(the Preact empty array becomes null). -/
theorem c8_render_strategy_priority (children0 : Option ChildrenProp)
    (component render : Bool) :
    (normChildren children0 = some .fn →
      routeRenderChoice true children0 component render =
        RenderChoice.childrenFnCall) ∧
    (normChildren children0 = some (.node true) →
      routeRenderChoice true children0 component render =
        RenderChoice.childrenNode) ∧
    (childrenTruthy (normChildren children0) = false → component = true →
      routeRenderChoice true children0 component render =
        RenderChoice.componentCreate) ∧
    (childrenTruthy (normChildren children0) = false → component = false →
      render = true →
      routeRenderChoice true children0 component render =
        RenderChoice.renderCall) ∧
    (childrenTruthy (normChildren children0) = false → component = false →
      render = false →
      routeRenderChoice true children0 component render =
        RenderChoice.renderNull) ∧
    (normChildren children0 = some .fn →
      routeRenderChoice false children0 component render =
        RenderChoice.childrenFnCall) ∧
    (normChildren children0 ≠ some .fn →
      routeRenderChoice false children0 component render =
        RenderChoice.renderNull) := by
  refine ⟨?_, ?_, ?_, ?_, ?_, ?_, ?_⟩
  · intro h
    simp [routeRenderChoice, h, childrenTruthy]
  · intro h
    simp [routeRenderChoice, h, childrenTruthy]
  · intro h1 h2
    simp only [routeRenderChoice, h1, h2]
    have hfn : ¬ normChildren children0 = some ChildrenProp.fn := by
      intro he
      rw [he] at h1
      exact Bool.noConfusion h1
    simp [hfn, h1]
  · intro h1 h2 h3
    simp [routeRenderChoice, h1, h2, h3]
  · intro h1 h2 h3
    simp [routeRenderChoice, h1, h2, h3]
  · intro h
    simp [routeRenderChoice, h]
  · intro h
    simp [routeRenderChoice, h]

/-- C8 witness: concrete dispatches covering each branch of the
priority order and the no-match behaviour. -/
theorem c8_witness :
    routeRenderChoice true (some .fn) true true = RenderChoice.childrenFnCall ∧
    routeRenderChoice true (some (.node true)) true true =
      RenderChoice.childrenNode ∧
    routeRenderChoice true none true true = RenderChoice.componentCreate ∧
    routeRenderChoice true (some .emptyArr) false true =
      RenderChoice.renderCall ∧
    routeRenderChoice true none false false = RenderChoice.renderNull ∧
    routeRenderChoice false (some .fn) true true =
      RenderChoice.childrenFnCall ∧
    routeRenderChoice false (some (.node true)) true true =
      RenderChoice.renderNull :=
  ⟨(c8_render_strategy_priority (some .fn) true true).1 rfl,
   (c8_render_strategy_priority (some (.node true)) true true).2.1 rfl,
   (c8_render_strategy_priority none true true).2.2.1 rfl rfl,
   (c8_render_strategy_priority (some .emptyArr) false true).2.2.2.1 rfl rfl rfl,
   (c8_render_strategy_priority none false false).2.2.2.2.1 rfl rfl rfl,
   (c8_render_strategy_priority (some .fn) true true).2.2.2.2.2.1 rfl,
   (c8_render_strategy_priority (some (.node true)) true true).2.2.2.2.2.2
     (by decide)⟩

/-- C10: a Route whose path prop is the empty string and that has no
computedMatch falls back to the inherited context match, for every
compiler (so matchPath is never consulted), even though matchPath
itself accepts the empty string as a pattern: its skip guard passes the
empty string through to the compiled matcher, and a successful matcher
yields a match. -/
theorem c10_empty_path_inherits
    (compile : String → CompileOptions → CompiledMatcher)
    (props : RouteProps) (ctx : RouterCtx)
    (h1 : props.computedMatch = none)
    (h2 : props.path = some (.single "")) :
    routeMatch compile props ctx = ctx.matched ∧
    (∀ (compile1 : String → CompileOptions → CompiledMatcher)
        (pathname u : String) (vs : List (Option String)),
      (compile1 "" ⟨false, false, false⟩).exec pathname = some (u, vs) →
      (matchPath compile1 pathname
        { path := some (.single ""), exact := false, strict := false,
          sensitive := false }).isSome = true) := by
  constructor
  · simp [routeMatch, h1, h2, pathPropTruthy]
  · intro compile1 pathname u vs hexec
    show (List.foldl (matchOne compile1 pathname false false false) none
      [PathElem.str ""]).isSome = true
    have hstep : matchOne compile1 pathname false false false none
        (PathElem.str "") =
        some { path := ""
               url := if "" = "/" ∧ u = "" then "/" else u
               isExact := decide (pathname = u)
               params := buildParams
                 (compile1 "" ⟨false, false, false⟩).keys vs } := by
      simp [matchOne, hexec]
    show (matchOne compile1 pathname false false false none
      (PathElem.str "")).isSome = true
    rw [hstep]
    rfl

/-- C10 witness: a concrete Route with an empty-string path inherits
the root context match, and matchPath with a matcher that succeeds for
the empty pattern produces a match. -/
theorem c10_witness :
    routeMatch demoCompile
      { computedMatch := none, path := some (.single ""), location := none,
        exact := false, strict := false, sensitive := false, children := none,
        component := false, render := false }
      { location := ⟨"/a"⟩, matched := some (computeRootMatch "/a") } =
      some (computeRootMatch "/a") ∧
    (matchPath demoCompile ""
      { path := some (.single ""), exact := false, strict := false,
        sensitive := false }).isSome = true := by
  have h := c10_empty_path_inherits demoCompile
    { computedMatch := none, path := some (.single ""), location := none,
      exact := false, strict := false, sensitive := false, children := none,
      component := false, render := false }
    { location := ⟨"/a"⟩, matched := some (computeRootMatch "/a") } rfl rfl
  exact ⟨h.1, h.2 demoCompile "" "" [] (by decide)⟩

end ReactRouter
